import Mathlib

/-!
Verification development for the `env` package (src/var.go): tag-directed
resolution of typed configuration values from an environment-style lookup
function. The Go source is shallowly embedded below: `reflect.Type` becomes
the closed inductive `GoType`, `reflect.Value` becomes `GoValue` (whose
`nil` constructor models the invalid value `reflect.ValueOf(nil)` used as
the "no value" sentinel), the Go `(T, error)` returns become `Except`, and
the external YAML decoder (`gopkg.in/yaml.v2`, out of scope per the spec)
is a function parameter `YamlDec`.
-/

/-- Structural category of a Go type, as returned by `reflect.Type.Kind()`. -/
inductive GoKind where
  | kString
  | kInt
  | kBool
  | kInt64
  | kSlice
  | kMap
  | kOther (name : String)
deriving DecidableEq

/-- The string `Kind().String()` would print. -/
def GoKind.str : GoKind → String
  | .kString => "string"
  | .kInt => "int"
  | .kBool => "bool"
  | .kInt64 => "int64"
  | .kSlice => "slice"
  | .kMap => "map"
  | .kOther n => n

/-- Closed model of the `reflect.Type`s the package can meet: the kinds
dispatched on in `convertWithKind`, `time.Duration` (kind int64), and
arbitrary named types carrying their kind and type-name string. -/
inductive GoType where
  | tString
  | tInt
  | tBool
  | tDuration
  | tSlice (elem : GoType)
  | tMap (key val : GoType)
  | tOther (kind : GoKind) (name : String)
deriving DecidableEq

/-- `reflect.Type.Kind()`. -/
def GoType.kind : GoType → GoKind
  | .tString => .kString
  | .tInt => .kInt
  | .tBool => .kBool
  | .tDuration => .kInt64
  | .tSlice _ => .kSlice
  | .tMap _ _ => .kMap
  | .tOther k _ => k

/-- `reflect.Type.String()`. -/
def GoType.typeStr : GoType → String
  | .tString => "string"
  | .tInt => "int"
  | .tBool => "bool"
  | .tDuration => "time.Duration"
  | .tSlice e => "[]" ++ e.typeStr
  | .tMap k v => "map[" ++ k.typeStr ++ "]" ++ v.typeStr
  | .tOther _ n => n

/-- Model of `reflect.Value`. `nil` is the invalid value
`reflect.ValueOf(nil)`, the package sentinel for "no value". `vReflectKind`
models `reflect.Zero(reflect.TypeOf(reflect.Int))` (a `reflect.Kind`
value), produced only on dead branches of `parseInt` / `parseBool`.
`vZero t` is `reflect.Zero(t)` for composite types, and `vOpaque` stands
for decoded composite values produced by the external YAML decoder. -/
inductive GoValue where
  | nil
  | vInt (i : Int)
  | vBool (b : Bool)
  | vString (s : String)
  | vDuration (nanos : Int)
  | vReflectKind (n : Nat)
  | vZero (t : GoType)
  | vOpaque (descr : String)
deriving DecidableEq

/-- Models `strings.Split` with a one-character separator. -/
def splitChar (sep : Char) : List Char → List (List Char)
  | [] => [[]]
  | c :: cs =>
    if c = sep then [] :: splitChar sep cs
    else
      match splitChar sep cs with
      | [] => [[c]]
      | g :: gs => (c :: g) :: gs

/-- `strings.Split(s, sep)` for a one-character separator. -/
def stringsSplit (s : String) (sep : Char) : List String :=
  (splitChar sep s.data).map fun l => String.mk l

/-- Models `strings.ToUpper` on one character; the Go mapping restricted to
the ASCII letters, which are the only letters the keys of this repository use. -/
def goCharToUpper (c : Char) : Char :=
  if c = 'a' then 'A' else if c = 'b' then 'B' else if c = 'c' then 'C'
  else if c = 'd' then 'D' else if c = 'e' then 'E' else if c = 'f' then 'F'
  else if c = 'g' then 'G' else if c = 'h' then 'H' else if c = 'i' then 'I'
  else if c = 'j' then 'J' else if c = 'k' then 'K' else if c = 'l' then 'L'
  else if c = 'm' then 'M' else if c = 'n' then 'N' else if c = 'o' then 'O'
  else if c = 'p' then 'P' else if c = 'q' then 'Q' else if c = 'r' then 'R'
  else if c = 's' then 'S' else if c = 't' then 'T' else if c = 'u' then 'U'
  else if c = 'v' then 'V' else if c = 'w' then 'W' else if c = 'x' then 'X'
  else if c = 'y' then 'Y' else if c = 'z' then 'Z' else c

/-- Models `strings.ToUpper`. -/
def stringsToUpper (s : String) : String :=
  String.mk (s.data.map goCharToUpper)

/-- Digit list of a natural number, via explicit fuel so that it reduces
in the kernel. -/
def natToChars : Nat → Nat → List Char
  | 0, _ => []
  | fuel + 1, n =>
    if n < 10 then [Nat.digitChar n]
    else natToChars fuel (n / 10) ++ [Nat.digitChar (n % 10)]

/-- Decimal rendering of a natural number. -/
def natStr (n : Nat) : String := String.mk (natToChars (n + 1) n)

/-- Decimal rendering of an integer, as `fmt` prints Go ints. -/
def intStr (i : Int) : String :=
  if i < 0 then "-" ++ natStr i.natAbs else natStr i.natAbs

/-- Errors the package can return. `conversion` is `errConversion` from the
source; `requiredMissing` and `optionNotAllowed` are the two `fmt.Errorf`
errors of `NewVarWithFunc`; the `duration` constructors are the errors of
`time.ParseDuration`. -/
inductive GoError where
  | conversion (value ty : String)
  | requiredMissing (key : String)
  | optionNotAllowed (key : String) (value : GoValue) (options : List GoValue)
  | durationInvalid (s : String)
  | durationMissingUnit (s : String)
  | durationUnknownUnit (unit s : String)
deriving DecidableEq

/-- `conversionError` from the source. -/
def conversionError (v t : String) : GoError := .conversion v t

/-- Digits consumed greedily from the front; models `leadingInt` of
`time.ParseDuration` (64-bit overflow is not modelled). Returns the value,
the rest, and whether any digit was consumed. -/
def leadingIntAux (acc : Nat) (sawDigit : Bool) : List Char → Nat × List Char × Bool
  | [] => (acc, [], sawDigit)
  | c :: cs =>
    if c.isDigit then leadingIntAux (acc * 10 + (c.toNat - 48)) true cs
    else (acc, c :: cs, sawDigit)

/-- Fraction digits consumed after a dot; models `leadingFraction` of
`time.ParseDuration`. Returns the fraction value, its scale (a power of
ten), and the rest. -/
def leadingFracAux (acc scale : Nat) : List Char → Nat × Nat × List Char
  | [] => (acc, scale, [])
  | c :: cs =>
    if c.isDigit then leadingFracAux (acc * 10 + (c.toNat - 48)) (scale * 10) cs
    else (acc, scale, c :: cs)

/-- Unit token: the maximal run of characters that are neither digits nor
a dot, from the front. -/
def takeUnit : List Char → List Char × List Char
  | [] => ([], [])
  | c :: cs =>
    if c.isDigit ∨ c = '.' then ([], c :: cs)
    else
      match takeUnit cs with
      | (u, r) => (c :: u, r)

/-- The unit table of `time.ParseDuration`, in nanoseconds. -/
def unitNanos (u : String) : Option Nat :=
  if u = "ns" then some 1
  else if u = "us" then some 1000
  else if u = "µs" then some 1000
  else if u = "μs" then some 1000
  else if u = "ms" then some 1000000
  else if u = "s" then some 1000000000
  else if u = "m" then some 60000000000
  else if u = "h" then some 3600000000000
  else none

/-- Main loop of `time.ParseDuration`: repeated `digits[.digits]unit`
groups. `orig` is the original input (for error messages); the fuel is at
least the input length plus one, and each round consumes at least one
character. The fractional contribution is computed with truncating integer
division where Go uses float64 arithmetic. -/
def parseDurLoop (orig : String) : Nat → Nat → List Char → Except GoError Nat
  | 0, _, _ => .error (.durationInvalid orig)
  | fuel + 1, d, s =>
    match s with
    | [] => .ok d
    | _ :: _ =>
      match leadingIntAux 0 false s with
      | (v, s1, pre) =>
        let (f, scale, s2, post) :=
          match s1 with
          | '.' :: cs =>
            match leadingFracAux 0 1 cs with
            | (f, sc, r) => (f, sc, r, true)
          | _ => (0, 1, s1, false)
        if pre = false ∧ post = false then .error (.durationInvalid orig)
        else
          match takeUnit s2 with
          | ([], _) => .error (.durationMissingUnit orig)
          | (uChars, s3) =>
            match unitNanos (String.mk uChars) with
            | none => .error (.durationUnknownUnit (String.mk uChars) orig)
            | some unit => parseDurLoop orig fuel (d + v * unit + f * unit / scale) s3

/-- Models `time.ParseDuration` (an external standard-library collaborator;
translated from its documented grammar: optional sign, then one or more
`digits[.digits]unit` groups, with `"0"` accepted bare). -/
def timeParseDuration (s : String) : Except GoError Int :=
  let orig := s
  let (neg, l) :=
    match s.data with
    | '-' :: cs => (true, cs)
    | '+' :: cs => (false, cs)
    | cs => (false, cs)
  if l = ['0'] then .ok 0
  else if l = [] then .error (.durationInvalid orig)
  else
    match parseDurLoop orig (l.length + 1) 0 l with
    | .ok d => .ok (if neg then -(d : Int) else (d : Int))
    | .error e => .error e

/-- Models `strconv.Atoi`: optional sign, then one or more decimal digits,
value within the signed 64-bit range. `none` models a non-nil error. -/
def strconvAtoi (s : String) : Option Int :=
  let core : List Char → Option Nat := fun l =>
    match leadingIntAux 0 false l with
    | (v, [], true) => some v
    | _ => none
  match s.data with
  | [] => none
  | '+' :: rest =>
    (core rest).bind fun n => if n ≤ 2 ^ 63 - 1 then some (n : Int) else none
  | '-' :: rest =>
    (core rest).bind fun n => if n ≤ 2 ^ 63 then some (-(n : Int)) else none
  | l =>
    (core l).bind fun n => if n ≤ 2 ^ 63 - 1 then some (n : Int) else none

/-- The external YAML decoder (`yaml.Unmarshal` into a fresh zero value of
the target type): out of scope per the spec, so it is a parameter of the
embedding. `some` is a successful decode, `none` a decoder error. -/
def YamlDec : Type := GoType → String → Option GoValue

/-- `parseInt` from the source. -/
def parseInt (value : String) : Except GoError GoValue :=
  if value = "" then .ok (.vReflectKind 0)
  else
    match strconvAtoi value with
    | some i => .ok (.vInt i)
    | none => .error (conversionError value "int")

/-- `parseBool` from the source; the literal set is that of `strconv.ParseBool`. -/
def parseBool (value : String) : Except GoError GoValue :=
  if value = "" then .ok (.vReflectKind 0)
  else if value = "1" ∨ value = "t" ∨ value = "T" ∨ value = "true" ∨
          value = "TRUE" ∨ value = "True" then .ok (.vBool true)
  else if value = "0" ∨ value = "f" ∨ value = "F" ∨ value = "false" ∨
          value = "FALSE" ∨ value = "False" then .ok (.vBool false)
  else .error (conversionError value "bool")

/-- `parseYaml` from the source: run the external decoder; a decoder error
becomes a conversion error carrying the kind and type name. -/
def parseYaml (yaml : YamlDec) (t : GoType) (value : String) : Except GoError GoValue :=
  match yaml t value with
  | some a => .ok a
  | none =>
    .error (conversionError value
      ("yaml conversion error; Kind(): " ++ t.kind.str ++ "; Type(): " ++ t.typeStr))

/-- `parseSlice` from the source. -/
def parseSlice (yaml : YamlDec) (t : GoType) (value : String) : Except GoError GoValue :=
  parseYaml yaml t value

/-- `parseMap` from the source. -/
def parseMap (yaml : YamlDec) (t : GoType) (value : String) : Except GoError GoValue :=
  parseYaml yaml t value

/-- `convertWithKind` from the source: dispatch on the structural kind. -/
def convertWithKind (yaml : YamlDec) (t : GoType) (value : String) : Except GoError GoValue :=
  if value = "" then .ok .nil
  else
    match t.kind with
    | .kString => .ok (.vString value)
    | .kInt => parseInt value
    | .kBool => parseBool value
    | .kSlice => parseSlice yaml t value
    | .kMap => parseMap yaml t value
    | k => .error (conversionError value ("unsupported " ++ k.str))

/-- `convertWithType` from the source: dispatch on the exact type-name
string; only `time.Duration` is recognized. -/
def convertWithType (t : GoType) (value : String) : Except GoError GoValue :=
  if t.typeStr = "time.Duration" then
    match timeParseDuration value with
    | .ok d => .ok (.vDuration d)
    | .error e => .error e
  else .error (conversionError value ("unsupported type " ++ t.typeStr))

/-- `convertWithYaml` from the source. -/
def convertWithYaml (yaml : YamlDec) (t : GoType) (value : String) : Except GoError GoValue :=
  parseYaml yaml t value

/-- `convert` from the source: empty input is the "no value" sentinel;
otherwise dispatch on the decode strategy. Under the unset strategy the
type-name path is tried first and the kind path is run whenever it
returned an error of any sort (`if (err != nil)` in the source). -/
def convert (yaml : YamlDec) (t : GoType) (value : String) (decode : String) :
    Except GoError GoValue :=
  if value = "" then .ok .nil
  else if decode = "" then
    match convertWithType t value with
    | .ok val => .ok val
    | .error _ => convertWithKind yaml t value
  else if decode = "kind" then convertWithKind yaml t value
  else if decode = "type" then convertWithType t value
  else if decode = "yaml" then convertWithYaml yaml t value
  else .error (conversionError decode "unsupported decode")

/-- Trailing zeros removed, as Go trims duration fractions. -/
def trimRightZeros (l : List Char) : List Char :=
  (l.reverse.dropWhile fun c => c = '0').reverse

/-- Left-padding with zeros up to `prec` digits. -/
def padZeros (l : List Char) (prec : Nat) : List Char :=
  List.replicate (prec - l.length) '0' ++ l

/-- Fractional part of `v` at `prec` decimal digits, rendered with
trailing zeros trimmed (empty if zero), together with the integer part;
models `fmtFrac` in the Go duration printer. -/
def fracStr (v prec : Nat) : String × Nat :=
  let digits := trimRightZeros (padZeros (natToChars (v % 10 ^ prec + 1) (v % 10 ^ prec)) prec)
  ((if digits = [] then "" else String.mk ('.' :: digits)), v / 10 ^ prec)

/-- Models `time.Duration.String` (how `fmt` prints a duration), from its
documented format: `0s`, sub-second values in ns, µs or ms, and larger
values as `[h][m]s` with a trimmed fractional part. -/
def durString (d : Int) : String :=
  let u := d.natAbs
  let sign := if d < 0 then "-" else ""
  if u < 1000000000 then
    if u = 0 then "0s"
    else
      let pu : Nat × String :=
        if u < 1000 then (0, "ns")
        else if u < 1000000 then (3, "µs")
        else (6, "ms")
      match fracStr u pu.1 with
      | (frac, w) => sign ++ natStr w ++ frac ++ pu.2
  else
    match fracStr u 9 with
    | (frac, w) =>
      let sPart := natStr (w % 60) ++ frac ++ "s"
      if w / 60 = 0 then sign ++ sPart
      else
        let mPart := natStr (w / 60 % 60) ++ "m" ++ sPart
        if w / 3600 = 0 then sign ++ mPart
        else sign ++ natStr (w / 3600) ++ "h" ++ mPart

/-- How the `%v` verb of `fmt` prints one of our values. Composite and opaque
values get a simplified rendering; no claim depends on those cases. -/
def GoValue.fmtStr : GoValue → String
  | .nil => "<invalid Value>"
  | .vInt i => intStr i
  | .vBool b => if b then "true" else "false"
  | .vString s => s
  | .vDuration d => durString d
  | .vReflectKind n => if n = 0 then "invalid" else natStr n
  | .vZero t => "<zero " ++ t.typeStr ++ ">"
  | .vOpaque s => s

/-- Space-separated join, as `%v` prints slice elements. -/
def joinSpace : List String → String
  | [] => ""
  | [x] => x
  | x :: xs => x ++ " " ++ joinSpace xs

/-- How `%v` prints a slice of values. -/
def fmtValueList (l : List GoValue) : String :=
  "[" ++ joinSpace (l.map GoValue.fmtStr) ++ "]"

/-- Double-quoting as the Go duration errors quote their input (escape
sequences are not modelled; the inputs here are plain text). -/
def quoteStr (s : String) : String := "\"" ++ s ++ "\""

/-- The `Error()` string of each error. -/
def GoError.message : GoError → String
  | .conversion v t => "could not convert value " ++ quoteStr v ++ " into " ++ t ++ " type"
  | .requiredMissing k => k ++ " required"
  | .optionNotAllowed k v opts =>
    k ++ "=" ++ quoteStr v.fmtStr ++ " not in allowed options: " ++ fmtValueList opts
  | .durationInvalid s => "time: invalid duration " ++ quoteStr s
  | .durationMissingUnit s => "time: missing unit in duration " ++ quoteStr s
  | .durationUnknownUnit u s =>
    "time: unknown unit " ++ quoteStr u ++ " in duration " ++ quoteStr s

/-- The `Var` struct from the source. The `reflect.Type` field starts as a
placeholder; `Var.Parse` always overwrites it before any use. -/
structure Var where
  Name : String := ""
  Key : String := ""
  Typ : GoType := .tOther (.kOther "invalid") "invalid"
  Value : GoValue := .nil
  Required : Bool := false
  Decode : String := ""
  Default : GoValue := .nil
  Options : List GoValue := []
deriving DecidableEq

/-- One struct field as the driver hands it over: its name, its
`reflect.Type`, and the value of its `env` struct tag
(`field.Tag.Get("env")`, empty when the tag is absent). -/
structure StructField where
  name : String
  typ : GoType
  tag : String
deriving DecidableEq

/-- One tag token split at `=` as the source does with `strings.Split`:
the directive name and, when present, the first value segment. -/
def tagPair (tok : String) : String × String :=
  match stringsSplit tok '=' with
  | [] => ("", "")
  | [k] => (k, "")
  | k :: v :: _ => (k, v)

/-- Insertion into the association-list model of a Go
`map[string]string`: overwrite the entry with the same key, else append. -/
def mapInsert (m : List (String × String)) (kv : String × String) :
    List (String × String) :=
  if m.any fun p => p.1 == kv.1 then
    m.map fun p => if p.1 == kv.1 then kv else p
  else m ++ [kv]

/-- The `tagParamsMap` built by `Var.Parse`: every token keyed by its
directive name, later occurrences overwriting earlier ones. -/
def tagMap (toks : List String) : List (String × String) :=
  (toks.map tagPair).foldl mapInsert []

/-- Deletion from the map model (`delete(tagParamsMap, k)`). -/
def mapErase (m : List (String × String)) (k : String) : List (String × String) :=
  m.filter fun p => p.1 != k

/-- `convert` applied to each element of an `options` list, stopping at
the first error, as the options loop of `Var.Parse` does. -/
def convertList (yaml : YamlDec) (t : GoType) (decode : String) :
    List String → Except GoError (List GoValue)
  | [] => .ok []
  | val :: rest =>
    match convert yaml t val decode with
    | .error e => .error e
    | .ok v1 =>
      match convertList yaml t decode rest with
      | .error e => .error e
      | .ok vs => .ok (v1 :: vs)

/-- The body of the directive loop in `Var.Parse` (its `switch`, an
ordered first-match chain). `key` uppercases via `SetKey`; unrecognized
directives fall through unchanged. -/
def processTag (yaml : YamlDec) (v : Var) (key value : String) : Except GoError Var :=
  if key = "key" then .ok { v with Key := stringsToUpper value }
  else if key = "required" then .ok { v with Required := true }
  else if key = "decode" then .ok { v with Decode := value }
  else if key = "default" then
    match convert yaml v.Typ value v.Decode with
    | .error e => .error e
    | .ok d => .ok { v with Default := d }
  else if key = "options" then
    match convertList yaml v.Typ v.Decode (stringsSplit value ',') with
    | .error e => .error e
    | .ok vals => .ok { v with Options := vals }
  else .ok v

/-- The `for key, value := range tagParamsMap` loop of `Var.Parse`. The Go
map iteration order is unspecified; this embedding fixes first-insertion
order. On an error the source returns with the fields mutated so far, so
the partially updated `Var` is returned alongside the error. -/
def processList (yaml : YamlDec) : List (String × String) → Var → Var × Option GoError
  | [], v => (v, none)
  | e :: rest, v =>
    match processTag yaml v e.1 e.2 with
    | .error err => (v, some err)
    | .ok v1 => processList yaml rest v1

/-- `Var.Parse` from the source. It is only ever called on a fresh `Var`,
so the embedding builds one from the field instead of threading a
receiver. The `decode` directive is extracted and applied before the loop
over the remaining directives. -/
def Var.Parse (yaml : YamlDec) (field : StructField) : Var × Option GoError :=
  if field.tag = "" then
    ({ Name := field.name, Typ := field.typ, Key := stringsToUpper field.name }, none)
  else
    match List.lookup "decode" (tagMap (stringsSplit field.tag ' ')) with
    | some value =>
      processList yaml (mapErase (tagMap (stringsSplit field.tag ' ')) "decode")
        { Name := field.name, Typ := field.typ, Key := stringsToUpper field.name,
          Decode := value }
    | none =>
      processList yaml (tagMap (stringsSplit field.tag ' '))
        { Name := field.name, Typ := field.typ, Key := stringsToUpper field.name }

/-- `reflect.Zero(t)`. -/
def zeroValue : GoType → GoValue
  | .tInt => .vInt 0
  | .tBool => .vBool false
  | .tString => .vString ""
  | .tDuration => .vDuration 0
  | t => .vZero t

/-- `Var.optionsContains` from the source: equality of the held values
(`Interface() ==`). -/
def Var.optionsContains (v : Var) (s : GoValue) : Bool :=
  v.Options.any fun o => s == o

/-- The tail of `NewVarWithFunc`: the options check and the final return,
shared by the fall-through paths of the source. -/
def Var.finishOptions (v : Var) : Var × Option GoError :=
  if v.Options.length > 0 then
    if v.optionsContains v.Value then (v, none)
    else (v, some (.optionNotAllowed v.Key v.Value v.Options))
  else (v, none)

/-- `NewVarWithFunc` from the source. The source calls `newVar.Parse(field)`
without looking at its returned error, so only the first component of
`Var.Parse` is consumed here. -/
def NewVarWithFunc (yaml : YamlDec) (field : StructField) (get : String → String) :
    Var × Option GoError :=
  let newVar := (Var.Parse yaml field).1
  match convert yaml newVar.Typ (get newVar.Key) newVar.Decode with
  | .error err => (newVar, some err)
  | .ok value =>
    let v1 := { newVar with Value := value }
    if value = GoValue.nil then
      if v1.Required then (v1, some (.requiredMissing v1.Key))
      else
        let v2 :=
          if v1.Default ≠ GoValue.nil then { v1 with Value := v1.Default }
          else { v1 with Value := zeroValue v1.Typ }
        v2.finishOptions
    else v1.finishOptions

/-- A concrete instance of the external YAML decoder used by the closed
witness statements: a decoder that always fails. Any `YamlDec` would do;
the claims settled at these witnesses never reach the decoder. -/
def yamlStub : YamlDec := fun _ _ => none

/-- A lookup function under which every key is absent. -/
def getEmpty : String → String := fun _ => ""

/-- Integer field with a malformed default, for the dropped-Parse-error
demonstration. -/
def fieldBadDefault : StructField := { name := "Port", typ := .tInt, tag := "default=abc" }

/-- String field with a lowercase `key` directive. -/
def fieldLowerKey : StructField := { name := "Host", typ := .tString, tag := "key=abc" }

/-- Integer field with a default and an explicit decode strategy, in an
order where the `default` token comes before the `decode` token. -/
def fieldDecodeAfterDefault : StructField :=
  { name := "Num", typ := .tInt, tag := "default=7 decode=kind" }

/-- Required string field. -/
def fieldRequired : StructField := { name := "R", typ := .tString, tag := "required" }

/-- Integer field with default 5. -/
def fieldDefaultFive : StructField := { name := "Port", typ := .tInt, tag := "default=5" }

/-- String field with options a,b,c. -/
def fieldOptionsAbc : StructField := { name := "F", typ := .tString, tag := "options=a,b,c" }

/-- Non-required integer field with options 1,2 and no default. -/
def fieldOptionsNums : StructField := { name := "N", typ := .tInt, tag := "options=1,2" }

theorem convert_empty (yaml : YamlDec) (t : GoType) (decode : String) :
    convert yaml t "" decode = .ok GoValue.nil := rfl

theorem zeroValue_ne_nil (t : GoType) : zeroValue t ≠ GoValue.nil := by
  cases t <;> simp [zeroValue]

theorem goCharToUpper_idem (c : Char) : goCharToUpper (goCharToUpper c) = goCharToUpper c := by
  by_cases h1 : c = 'a'
  · subst h1; decide
  by_cases h2 : c = 'b'
  · subst h2; decide
  by_cases h3 : c = 'c'
  · subst h3; decide
  by_cases h4 : c = 'd'
  · subst h4; decide
  by_cases h5 : c = 'e'
  · subst h5; decide
  by_cases h6 : c = 'f'
  · subst h6; decide
  by_cases h7 : c = 'g'
  · subst h7; decide
  by_cases h8 : c = 'h'
  · subst h8; decide
  by_cases h9 : c = 'i'
  · subst h9; decide
  by_cases h10 : c = 'j'
  · subst h10; decide
  by_cases h11 : c = 'k'
  · subst h11; decide
  by_cases h12 : c = 'l'
  · subst h12; decide
  by_cases h13 : c = 'm'
  · subst h13; decide
  by_cases h14 : c = 'n'
  · subst h14; decide
  by_cases h15 : c = 'o'
  · subst h15; decide
  by_cases h16 : c = 'p'
  · subst h16; decide
  by_cases h17 : c = 'q'
  · subst h17; decide
  by_cases h18 : c = 'r'
  · subst h18; decide
  by_cases h19 : c = 's'
  · subst h19; decide
  by_cases h20 : c = 't'
  · subst h20; decide
  by_cases h21 : c = 'u'
  · subst h21; decide
  by_cases h22 : c = 'v'
  · subst h22; decide
  by_cases h23 : c = 'w'
  · subst h23; decide
  by_cases h24 : c = 'x'
  · subst h24; decide
  by_cases h25 : c = 'y'
  · subst h25; decide
  by_cases h26 : c = 'z'
  · subst h26; decide
  have hfix : goCharToUpper c = c := by
    unfold goCharToUpper
    rw [if_neg h1, if_neg h2, if_neg h3, if_neg h4, if_neg h5, if_neg h6, if_neg h7, if_neg h8, if_neg h9, if_neg h10, if_neg h11, if_neg h12, if_neg h13, if_neg h14, if_neg h15, if_neg h16, if_neg h17, if_neg h18, if_neg h19, if_neg h20, if_neg h21, if_neg h22, if_neg h23, if_neg h24, if_neg h25, if_neg h26]
  rw [hfix]
  exact hfix

theorem stringsToUpper_idem (s : String) :
    stringsToUpper (stringsToUpper s) = stringsToUpper s := by
  unfold stringsToUpper
  simp only [List.map_map]
  congr 1
  apply List.map_congr_left
  intro c _
  exact goCharToUpper_idem c

theorem finishOptions_fst (v : Var) : (Var.finishOptions v).1 = v := by
  unfold Var.finishOptions
  split_ifs <;> rfl

theorem processTag_key_eq (yaml : YamlDec) (v : Var) (val : String) :
    processTag yaml v "key" val = .ok { v with Key := stringsToUpper val } := rfl

theorem processTag_required_eq (yaml : YamlDec) (v : Var) (val : String) :
    processTag yaml v "required" val = .ok { v with Required := true } := rfl

theorem processTag_default_eq (yaml : YamlDec) (v : Var) (val : String) :
    processTag yaml v "default" val =
      match convert yaml v.Typ val v.Decode with
      | .error e => .error e
      | .ok d => .ok { v with Default := d } := rfl

theorem processTag_options_eq (yaml : YamlDec) (v : Var) (val : String) :
    processTag yaml v "options" val =
      match convertList yaml v.Typ v.Decode (stringsSplit val ',') with
      | .error e => .error e
      | .ok vals => .ok { v with Options := vals } := rfl

theorem processTag_ok_fields (yaml : YamlDec) (v : Var) (k val : String) (v' : Var)
    (h : processTag yaml v k val = Except.ok v') :
    v'.Typ = v.Typ ∧ v'.Name = v.Name ∧ v'.Value = v.Value ∧
    (k ≠ "decode" → v'.Decode = v.Decode) ∧
    (k ≠ "key" → v'.Key = v.Key) ∧
    (k ≠ "default" → v'.Default = v.Default) ∧
    (k ≠ "options" → v'.Options = v.Options) := by
  unfold processTag at h
  split_ifs at h with h1 h2 h3 h4 h5
  · cases h; subst h1; simp
  · cases h; subst h2; simp
  · cases h; subst h3; simp
  · subst h4
    cases hc : convert yaml v.Typ val v.Decode <;> rw [hc] at h
    · cases h
    · cases h; simp
  · subst h5
    cases hc : convertList yaml v.Typ v.Decode (stringsSplit val ',') <;> rw [hc] at h
    · cases h
    · cases h; simp
  · cases h; simp

theorem processList_fields (yaml : YamlDec) (E : List (String × String)) (v : Var) :
    ((processList yaml E v).1).Typ = v.Typ ∧
    ((∀ p ∈ E, p.1 ≠ "decode") → ((processList yaml E v).1).Decode = v.Decode) ∧
    ((∀ p ∈ E, p.1 ≠ "key") → ((processList yaml E v).1).Key = v.Key) ∧
    ((∀ p ∈ E, p.1 ≠ "default") → ((processList yaml E v).1).Default = v.Default) ∧
    ((∀ p ∈ E, p.1 ≠ "options") → ((processList yaml E v).1).Options = v.Options) := by
  induction E generalizing v with
  | nil => simp [processList]
  | cons e rest ih =>
    cases hpt : processTag yaml v e.1 e.2 with
    | error err => simp [processList, hpt]
    | ok v1 =>
      have hf := processTag_ok_fields yaml v e.1 e.2 v1 hpt
      have ihv := ih v1
      simp only [processList, hpt]
      refine ⟨ihv.1.trans hf.1, ?_, ?_, ?_, ?_⟩
      · intro hall
        exact (ihv.2.1 fun p hp => hall p (List.mem_cons_of_mem e hp)).trans
          (hf.2.2.2.1 (hall e (List.mem_cons_self e rest)))
      · intro hall
        exact (ihv.2.2.1 fun p hp => hall p (List.mem_cons_of_mem e hp)).trans
          (hf.2.2.2.2.1 (hall e (List.mem_cons_self e rest)))
      · intro hall
        exact (ihv.2.2.2.1 fun p hp => hall p (List.mem_cons_of_mem e hp)).trans
          (hf.2.2.2.2.2.1 (hall e (List.mem_cons_self e rest)))
      · intro hall
        exact (ihv.2.2.2.2 fun p hp => hall p (List.mem_cons_of_mem e hp)).trans
          (hf.2.2.2.2.2.2 (hall e (List.mem_cons_self e rest)))

theorem replaceEntry_keys (m : List (String × String)) (kv : String × String) :
    ((m.map fun p => if p.1 == kv.1 then kv else p).map Prod.fst) = m.map Prod.fst := by
  induction m with
  | nil => rfl
  | cons p rest ih =>
    simp only [List.map_cons, ih, List.cons.injEq, and_true]
    split_ifs with h
    · exact (beq_iff_eq.mp h).symm
    · rfl

theorem mapInsert_keys_nodup (m : List (String × String)) (kv : String × String)
    (h : (m.map Prod.fst).Nodup) : ((mapInsert m kv).map Prod.fst).Nodup := by
  unfold mapInsert
  split_ifs with hany
  · rw [replaceEntry_keys]; exact h
  · rw [List.map_append]
    rw [List.nodup_append]
    refine ⟨h, List.nodup_singleton _, ?_⟩
    intro x hx hx1
    simp only [List.map_cons, List.map_nil, List.mem_singleton] at hx1
    subst hx1
    rcases List.mem_map.mp hx with ⟨p, hp, hpk⟩
    exact hany (List.any_eq_true.mpr ⟨p, hp, beq_iff_eq.mpr hpk⟩)

theorem foldl_mapInsert_nodup (l : List (String × String)) (m : List (String × String))
    (h : (m.map Prod.fst).Nodup) : ((l.foldl mapInsert m).map Prod.fst).Nodup := by
  induction l generalizing m with
  | nil => exact h
  | cons kv rest ih => exact ih (mapInsert m kv) (mapInsert_keys_nodup m kv h)

theorem tagMap_keys_nodup (toks : List String) : ((tagMap toks).map Prod.fst).Nodup :=
  foldl_mapInsert_nodup (toks.map tagPair) [] List.nodup_nil

theorem lookup_mem (k v : String) (m : List (String × String))
    (h : List.lookup k m = some v) : (k, v) ∈ m := by
  induction m with
  | nil => cases h
  | cons p rest ih =>
    cases p with
    | mk pk pv =>
      rw [List.lookup] at h
      cases hk : (k == pk) with
      | true =>
        rw [hk] at h
        cases h
        rw [show k = pk from beq_iff_eq.mp hk]
        exact List.mem_cons_self _ _
      | false =>
        rw [hk] at h
        exact List.mem_cons_of_mem _ (ih h)

theorem mapErase_mem (m : List (String × String)) (k : String) (p : String × String)
    (h : p ∈ m) (hne : p.1 ≠ k) : p ∈ mapErase m k := by
  refine List.mem_filter.mpr ⟨h, ?_⟩
  simpa [bne_iff_ne] using hne

theorem mapErase_keys_nodup (m : List (String × String)) (k : String)
    (h : (m.map Prod.fst).Nodup) : ((mapErase m k).map Prod.fst).Nodup :=
  ((List.filter_sublist m).map Prod.fst).nodup h

theorem mapErase_not_key (m : List (String × String)) (k : String) :
    ∀ p ∈ mapErase m k, p.1 ≠ k := by
  intro p hp
  have := List.of_mem_filter hp
  simpa [bne_iff_ne] using this

theorem processList_default (yaml : YamlDec) (E : List (String × String)) (v vfin : Var)
    (dv : String)
    (hnd : (E.map Prod.fst).Nodup)
    (hdec : ∀ p ∈ E, p.1 ≠ "decode")
    (hmem : ("default", dv) ∈ E)
    (h : processList yaml E v = (vfin, none)) :
    convert yaml v.Typ dv v.Decode = Except.ok vfin.Default := by
  induction E generalizing v with
  | nil => cases hmem
  | cons e rest ih =>
    cases hpt : processTag yaml v e.1 e.2 with
    | error err =>
      simp only [processList, hpt] at h
      exact absurd h (by simp)
    | ok v1 =>
      simp only [processList, hpt] at h
      rcases List.mem_cons.mp hmem with he | hrest
      · have he1 : e.1 = "default" := by rw [← he]
        have he2 : e.2 = dv := by rw [← he]
        rw [he1, he2, processTag_default_eq] at hpt
        cases hc : convert yaml v.Typ dv v.Decode with
        | error e2 => rw [hc] at hpt; cases hpt
        | ok d =>
          rw [hc] at hpt
          cases hpt
          have hnotin : "default" ∉ rest.map Prod.fst := by
            have hkeys := hnd
            rw [List.map_cons, he1] at hkeys
            exact (List.nodup_cons.mp hkeys).1
          have hrestno : ∀ p ∈ rest, p.1 ≠ "default" := by
            intro p hp hcon
            exact hnotin (hcon ▸ List.mem_map_of_mem Prod.fst hp)
          have hpres := (processList_fields yaml rest { v with Default := d }).2.2.2.1 hrestno
          rw [h] at hpres
          simp only at hpres
          rw [hpres]
      · have hin : "default" ∈ rest.map Prod.fst :=
          List.mem_map.mpr ⟨("default", dv), hrest, rfl⟩
        have hene : e.1 ≠ "default" := by
          intro hcon
          have hkeys := hnd
          rw [List.map_cons] at hkeys
          exact (List.nodup_cons.mp hkeys).1 (hcon ▸ hin)
        have hf := processTag_ok_fields yaml v e.1 e.2 v1 hpt
        have hTyp : v1.Typ = v.Typ := hf.1
        have hDec : v1.Decode = v.Decode := hf.2.2.2.1 (hdec e (List.mem_cons_self e rest))
        have hrec := ih v1 (by rw [List.map_cons] at hnd; exact (List.nodup_cons.mp hnd).2)
          (fun p hp => hdec p (List.mem_cons_of_mem e hp)) hrest h
        rw [hTyp, hDec] at hrec
        exact hrec

theorem processList_options (yaml : YamlDec) (E : List (String × String)) (v vfin : Var)
    (ov : String)
    (hnd : (E.map Prod.fst).Nodup)
    (hdec : ∀ p ∈ E, p.1 ≠ "decode")
    (hmem : ("options", ov) ∈ E)
    (h : processList yaml E v = (vfin, none)) :
    convertList yaml v.Typ v.Decode (stringsSplit ov ',') = Except.ok vfin.Options := by
  induction E generalizing v with
  | nil => cases hmem
  | cons e rest ih =>
    cases hpt : processTag yaml v e.1 e.2 with
    | error err =>
      simp only [processList, hpt] at h
      exact absurd h (by simp)
    | ok v1 =>
      simp only [processList, hpt] at h
      rcases List.mem_cons.mp hmem with he | hrest
      · have he1 : e.1 = "options" := by rw [← he]
        have he2 : e.2 = ov := by rw [← he]
        rw [he1, he2, processTag_options_eq] at hpt
        cases hc : convertList yaml v.Typ v.Decode (stringsSplit ov ',') with
        | error e2 => rw [hc] at hpt; cases hpt
        | ok vals =>
          rw [hc] at hpt
          cases hpt
          have hnotin : "options" ∉ rest.map Prod.fst := by
            have hkeys := hnd
            rw [List.map_cons, he1] at hkeys
            exact (List.nodup_cons.mp hkeys).1
          have hrestno : ∀ p ∈ rest, p.1 ≠ "options" := by
            intro p hp hcon
            exact hnotin (hcon ▸ List.mem_map_of_mem Prod.fst hp)
          have hpres := (processList_fields yaml rest { v with Options := vals }).2.2.2.2 hrestno
          rw [h] at hpres
          simp only at hpres
          rw [hpres]
      · have hin : "options" ∈ rest.map Prod.fst :=
          List.mem_map.mpr ⟨("options", ov), hrest, rfl⟩
        have hene : e.1 ≠ "options" := by
          intro hcon
          have hkeys := hnd
          rw [List.map_cons] at hkeys
          exact (List.nodup_cons.mp hkeys).1 (hcon ▸ hin)
        have hf := processTag_ok_fields yaml v e.1 e.2 v1 hpt
        have hTyp : v1.Typ = v.Typ := hf.1
        have hDec : v1.Decode = v.Decode := hf.2.2.2.1 (hdec e (List.mem_cons_self e rest))
        have hrec := ih v1 (by rw [List.map_cons] at hnd; exact (List.nodup_cons.mp hnd).2)
          (fun p hp => hdec p (List.mem_cons_of_mem e hp)) hrest h
        rw [hTyp, hDec] at hrec
        exact hrec

theorem processList_key (yaml : YamlDec) (E : List (String × String)) (v vfin : Var)
    (kv : String)
    (hnd : (E.map Prod.fst).Nodup)
    (hmem : ("key", kv) ∈ E)
    (h : processList yaml E v = (vfin, none)) :
    vfin.Key = stringsToUpper kv := by
  induction E generalizing v with
  | nil => cases hmem
  | cons e rest ih =>
    cases hpt : processTag yaml v e.1 e.2 with
    | error err =>
      simp only [processList, hpt] at h
      exact absurd h (by simp)
    | ok v1 =>
      simp only [processList, hpt] at h
      rcases List.mem_cons.mp hmem with he | hrest
      · have he1 : e.1 = "key" := by rw [← he]
        have he2 : e.2 = kv := by rw [← he]
        rw [he1, he2, processTag_key_eq] at hpt
        cases hpt
        have hnotin : "key" ∉ rest.map Prod.fst := by
          have hkeys := hnd
          rw [List.map_cons, he1] at hkeys
          exact (List.nodup_cons.mp hkeys).1
        have hrestno : ∀ p ∈ rest, p.1 ≠ "key" := by
          intro p hp hcon
          exact hnotin (hcon ▸ List.mem_map_of_mem Prod.fst hp)
        have hpres := (processList_fields yaml rest { v with Key := stringsToUpper kv }).2.2.1
          hrestno
        rw [h] at hpres
        simpa only using hpres
      · have hrec := ih v1 (by rw [List.map_cons] at hnd; exact (List.nodup_cons.mp hnd).2)
          hrest h
        exact hrec

theorem processList_key_upper (yaml : YamlDec) (E : List (String × String)) (v : Var)
    (h : stringsToUpper v.Key = v.Key) :
    stringsToUpper ((processList yaml E v).1).Key = ((processList yaml E v).1).Key := by
  induction E generalizing v with
  | nil => simpa [processList] using h
  | cons e rest ih =>
    cases hpt : processTag yaml v e.1 e.2 with
    | error err => simpa [processList, hpt] using h
    | ok v1 =>
      simp only [processList, hpt]
      apply ih
      by_cases hk : e.1 = "key"
      · rw [hk, processTag_key_eq] at hpt
        cases hpt
        exact stringsToUpper_idem e.2
      · rw [(processTag_ok_fields yaml v e.1 e.2 v1 hpt).2.2.2.2.1 hk]
        exact h

theorem finishOptions_pass (v : Var) (hc : v.optionsContains v.Value = true) :
    Var.finishOptions v = (v, none) := by
  unfold Var.finishOptions
  split_ifs <;> simp_all

theorem finishOptions_fail (v : Var) (hOpts : v.Options ≠ [])
    (hnc : v.optionsContains v.Value = false) :
    Var.finishOptions v = (v, some (.optionNotAllowed v.Key v.Value v.Options)) := by
  unfold Var.finishOptions
  rw [if_pos (List.length_pos.mpr hOpts), hnc]
  simp

theorem finishOptions_snd_none (v : Var) (hOpts : v.Options ≠ [])
    (h : (Var.finishOptions v).2 = none) : v.optionsContains v.Value = true := by
  by_cases hc : v.optionsContains v.Value = true
  · exact hc
  · rw [finishOptions_fail v hOpts (by simpa using hc)] at h
    cases h

theorem NewVarWithFunc_conv_error (yaml : YamlDec) (field : StructField)
    (get : String → String) (e : GoError)
    (hc : convert yaml ((Var.Parse yaml field).1).Typ (get ((Var.Parse yaml field).1).Key)
            ((Var.Parse yaml field).1).Decode = .error e) :
    NewVarWithFunc yaml field get = ((Var.Parse yaml field).1, some e) := by
  simp only [NewVarWithFunc]
  rw [hc]

theorem NewVarWithFunc_nil_required (yaml : YamlDec) (field : StructField)
    (get : String → String)
    (hc : convert yaml ((Var.Parse yaml field).1).Typ (get ((Var.Parse yaml field).1).Key)
            ((Var.Parse yaml field).1).Decode = .ok GoValue.nil)
    (hReq : ((Var.Parse yaml field).1).Required = true) :
    NewVarWithFunc yaml field get =
      ({ (Var.Parse yaml field).1 with Value := GoValue.nil },
       some (GoError.requiredMissing ((Var.Parse yaml field).1).Key)) := by
  simp only [NewVarWithFunc]
  rw [hc]
  simp [hReq]

theorem NewVarWithFunc_nil_notRequired (yaml : YamlDec) (field : StructField)
    (get : String → String)
    (hc : convert yaml ((Var.Parse yaml field).1).Typ (get ((Var.Parse yaml field).1).Key)
            ((Var.Parse yaml field).1).Decode = .ok GoValue.nil)
    (hReq : ((Var.Parse yaml field).1).Required = false) :
    NewVarWithFunc yaml field get =
      Var.finishOptions
        { (Var.Parse yaml field).1 with
          Value :=
            if ((Var.Parse yaml field).1).Default ≠ GoValue.nil
            then ((Var.Parse yaml field).1).Default
            else zeroValue ((Var.Parse yaml field).1).Typ } := by
  simp only [NewVarWithFunc]
  rw [hc]
  simp only [hReq]
  split_ifs <;> simp_all

theorem NewVarWithFunc_present_case (yaml : YamlDec) (field : StructField)
    (get : String → String) (w : GoValue)
    (hc : convert yaml ((Var.Parse yaml field).1).Typ (get ((Var.Parse yaml field).1).Key)
            ((Var.Parse yaml field).1).Decode = .ok w)
    (hw : w ≠ GoValue.nil) :
    NewVarWithFunc yaml field get =
      Var.finishOptions { (Var.Parse yaml field).1 with Value := w } := by
  simp only [NewVarWithFunc]
  rw [hc]
  simp [hw]

theorem Parse_decode_eq (yaml : YamlDec) (field : StructField) (D : String)
    (htag : field.tag ≠ "")
    (hD : List.lookup "decode" (tagMap (stringsSplit field.tag ' ')) = some D) :
    Var.Parse yaml field =
      processList yaml (mapErase (tagMap (stringsSplit field.tag ' ')) "decode")
        { Name := field.name, Typ := field.typ, Key := stringsToUpper field.name,
          Decode := D } := by
  unfold Var.Parse
  rw [if_neg htag, hD]

theorem Parse_nodecode_eq (yaml : YamlDec) (field : StructField)
    (htag : field.tag ≠ "")
    (hD : List.lookup "decode" (tagMap (stringsSplit field.tag ' ')) = none) :
    Var.Parse yaml field =
      processList yaml (tagMap (stringsSplit field.tag ' '))
        { Name := field.name, Typ := field.typ, Key := stringsToUpper field.name } := by
  unfold Var.Parse
  rw [if_neg htag, hD]

theorem NewVarWithFunc_fst_key (yaml : YamlDec) (field : StructField)
    (get : String → String) :
    ((NewVarWithFunc yaml field get).1).Key = ((Var.Parse yaml field).1).Key := by
  cases hc : convert yaml ((Var.Parse yaml field).1).Typ (get ((Var.Parse yaml field).1).Key)
      ((Var.Parse yaml field).1).Decode with
  | error e => rw [NewVarWithFunc_conv_error yaml field get e hc]
  | ok w =>
    by_cases hw : w = GoValue.nil
    · subst hw
      by_cases hr : ((Var.Parse yaml field).1).Required = true
      · rw [NewVarWithFunc_nil_required yaml field get hc hr]
      · rw [NewVarWithFunc_nil_notRequired yaml field get hc (by simpa using hr),
          finishOptions_fst]
    · rw [NewVarWithFunc_present_case yaml field get w hc hw, finishOptions_fst]

/-- C1 counterexample: under the unset decode strategy, the malformed
duration string "xyz" on a duration-typed field does NOT propagate the
type-name conversion error (the duration parse error); the kind-based
fallback runs and its own error (unsupported kind int64) is returned
instead, so the claim that only "unsupported type" triggers fallback is
false on the code. -/
theorem C1_counterexample :
    convertWithType GoType.tDuration "xyz" = Except.error (GoError.durationInvalid "xyz") ∧
    convert yamlStub GoType.tDuration "xyz" "" =
      Except.error (GoError.conversion "xyz" "unsupported int64") ∧
    GoError.durationInvalid "xyz" ≠ GoError.conversion "xyz" "unsupported int64" :=
  ⟨rfl, rfl, by decide⟩

/-- C1 amended: under the unset decode strategy, for every non-empty raw
string, type-name conversion is attempted first and kind-based conversion
is used as a fallback whenever type-name conversion returns an error of
any sort (not only "unsupported type"); the fallback result, value or
error, is what the caller receives. -/
theorem C1_amended_fallback_any_error (yaml : YamlDec) (t : GoType) (v : String)
    (e : GoError) (hv : v ≠ "") (he : convertWithType t v = Except.error e) :
    convert yaml t v "" = convertWithKind yaml t v := by
  unfold convert
  rw [if_neg hv]
  simp [he]

/-- C1 amended, witnessed at the int-typed field with raw string "abc":
the type path errors (unsupported type int) and the outcome of the kind path is
returned. -/
theorem C1_amended_witness :
    ("abc" ≠ "" ∧
      convertWithType GoType.tInt "abc" =
        Except.error (GoError.conversion "abc" "unsupported type int")) ∧
    convert yamlStub GoType.tInt "abc" "" = convertWithKind yamlStub GoType.tInt "abc" :=
  ⟨⟨by decide, rfl⟩,
   C1_amended_fallback_any_error yamlStub GoType.tInt "abc"
     (GoError.conversion "abc" "unsupported type int") (by decide) rfl⟩

/-- C2: the claim says a failing `default` conversion propagates out of
NewVarWithFunc, but the source discards the error `Var.Parse` returns: on
an int field tagged `default=abc` with an absent key, `Var.Parse` reports
the conversion error, yet `NewVarWithFunc` succeeds with the zero value
and no error. -/
theorem C2_parse_error_discarded :
    (Var.Parse yamlStub fieldBadDefault).2 = some (GoError.conversion "abc" "int") ∧
    (NewVarWithFunc yamlStub fieldBadDefault getEmpty).2 = none ∧
    (NewVarWithFunc yamlStub fieldBadDefault getEmpty).1.Value = GoValue.vInt 0 :=
  ⟨by decide, by decide, by decide⟩

/-- C3 counterexample: the tag `key=abc` does not install the key
verbatim; the key of the descriptor is the uppercased "ABC". -/
theorem C3_counterexample :
    (Var.Parse yamlStub fieldLowerKey).1.Key ≠ "abc" ∧
    (Var.Parse yamlStub fieldLowerKey).1.Key = "ABC" :=
  ⟨by decide, by decide⟩

/-- C3 amended: for every field whose tag carries a `key=value` directive
and whose tag parses without error, the lookup key of the descriptor is the
UPPERCASED directive value (`SetKey` applies `strings.ToUpper`), not the
verbatim value. -/
theorem C3_amended_key_uppercased (yaml : YamlDec) (field : StructField) (kv : String)
    (hK : List.lookup "key" (tagMap (stringsSplit field.tag ' ')) = some kv)
    (hOk : (Var.Parse yaml field).2 = none) :
    (Var.Parse yaml field).1.Key = stringsToUpper kv := by
  have htag : field.tag ≠ "" := by
    intro h0
    rw [h0] at hK
    exact Option.noConfusion hK
  cases hD : List.lookup "decode" (tagMap (stringsSplit field.tag ' ')) with
  | none =>
    rw [Parse_nodecode_eq yaml field htag hD] at hOk ⊢
    exact processList_key yaml (tagMap (stringsSplit field.tag ' '))
      { Name := field.name, Typ := field.typ, Key := stringsToUpper field.name } _ kv
      (tagMap_keys_nodup _) (lookup_mem _ _ _ hK) (by rw [← hOk])
  | some D =>
    rw [Parse_decode_eq yaml field D htag hD] at hOk ⊢
    exact processList_key yaml (mapErase (tagMap (stringsSplit field.tag ' ')) "decode")
      { Name := field.name, Typ := field.typ, Key := stringsToUpper field.name,
        Decode := D } _ kv
      (mapErase_keys_nodup _ _ (tagMap_keys_nodup _))
      (mapErase_mem (tagMap (stringsSplit field.tag ' ')) "decode" ("key", kv)
        (lookup_mem _ _ _ hK) (by show ("key" : String) ≠ "decode"; decide))
      (by rw [← hOk])

/-- C3 amended, witnessed at the tag `key=abc`: the key ends up as the
uppercasing of "abc". -/
theorem C3_amended_witness :
    (Var.Parse yamlStub fieldLowerKey).1.Key = stringsToUpper "abc" :=
  C3_amended_key_uppercased yamlStub fieldLowerKey "abc" (by decide) (by decide)

/-- C4: whenever the tag has a `decode` directive (in any token position)
and parses without error, the parsed decode strategy equals the
value of the directive, the stored default is exactly the conversion of the
`default` directive value under that strategy, and the stored options
are exactly the conversions of the `options` elements under that
strategy — i.e. the decode strategy is already in effect when `default`
and `options` are converted. -/
theorem C4_decode_processed_first (yaml : YamlDec) (field : StructField) (D : String)
    (hD : List.lookup "decode" (tagMap (stringsSplit field.tag ' ')) = some D)
    (hOk : (Var.Parse yaml field).2 = none) :
    (Var.Parse yaml field).1.Decode = D ∧
    (∀ dv, List.lookup "default" (tagMap (stringsSplit field.tag ' ')) = some dv →
      convert yaml field.typ dv D = Except.ok ((Var.Parse yaml field).1.Default)) ∧
    (∀ ov, List.lookup "options" (tagMap (stringsSplit field.tag ' ')) = some ov →
      convertList yaml field.typ D (stringsSplit ov ',') =
        Except.ok ((Var.Parse yaml field).1.Options)) := by
  have htag : field.tag ≠ "" := by
    intro h0
    rw [h0] at hD
    exact Option.noConfusion hD
  rw [Parse_decode_eq yaml field D htag hD] at hOk ⊢
  have hpair : processList yaml (mapErase (tagMap (stringsSplit field.tag ' ')) "decode")
      { Name := field.name, Typ := field.typ, Key := stringsToUpper field.name,
        Decode := D } =
      ((processList yaml (mapErase (tagMap (stringsSplit field.tag ' ')) "decode")
        { Name := field.name, Typ := field.typ, Key := stringsToUpper field.name,
          Decode := D }).1, none) := by
    rw [← hOk]
  refine ⟨?_, ?_, ?_⟩
  · rw [(processList_fields yaml _ _).2.1 (mapErase_not_key _ _)]
  · intro dv hdv
    exact processList_default yaml _ _ _ dv
      (mapErase_keys_nodup _ _ (tagMap_keys_nodup _)) (mapErase_not_key _ _)
      (mapErase_mem (tagMap (stringsSplit field.tag ' ')) "decode" ("default", dv)
        (lookup_mem _ _ _ hdv) (by show ("default" : String) ≠ "decode"; decide)) hpair
  · intro ov hov
    exact processList_options yaml _ _ _ ov
      (mapErase_keys_nodup _ _ (tagMap_keys_nodup _)) (mapErase_not_key _ _)
      (mapErase_mem (tagMap (stringsSplit field.tag ' ')) "decode" ("options", ov)
        (lookup_mem _ _ _ hov) (by show ("options" : String) ≠ "decode"; decide)) hpair

/-- C4, witnessed at the tag `default=7 decode=kind` (the `default` token
comes first): the parsed strategy is "kind" and the stored default is the
kind-conversion of "7" under it. -/
theorem C4_witness :
    (Var.Parse yamlStub fieldDecodeAfterDefault).1.Decode = "kind" ∧
    convert yamlStub GoType.tInt "7" "kind" =
      Except.ok ((Var.Parse yamlStub fieldDecodeAfterDefault).1.Default) := by
  have h := C4_decode_processed_first yamlStub fieldDecodeAfterDefault "kind"
    (by decide) (by decide)
  exact ⟨h.1, h.2.1 "7" (by decide)⟩

/-- C5: for every target type and every decode-strategy token, including
unrecognized ones, converting the empty raw string yields the "no value"
sentinel with no error. -/
theorem C5_empty_raw_no_value (yaml : YamlDec) (t : GoType) (decode : String) :
    convert yaml t "" decode = Except.ok GoValue.nil :=
  convert_empty yaml t decode

/-- C6: for every field whose parsed descriptor is required and whose
lookup yields the empty string, NewVarWithFunc fails with the
required-missing error, whose message contains (starts with) the resolved
key. -/
theorem C6_required_missing (yaml : YamlDec) (field : StructField)
    (get : String → String)
    (hReq : ((Var.Parse yaml field).1).Required = true)
    (hAbs : get ((Var.Parse yaml field).1).Key = "") :
    (NewVarWithFunc yaml field get).2 =
      some (GoError.requiredMissing ((Var.Parse yaml field).1).Key) ∧
    GoError.message (GoError.requiredMissing ((Var.Parse yaml field).1).Key) =
      ((Var.Parse yaml field).1).Key ++ " required" := by
  have hc : convert yaml ((Var.Parse yaml field).1).Typ
      (get ((Var.Parse yaml field).1).Key) ((Var.Parse yaml field).1).Decode =
      .ok GoValue.nil := by
    rw [hAbs]
    exact convert_empty _ _ _
  exact ⟨by rw [NewVarWithFunc_nil_required yaml field get hc hReq], rfl⟩

/-- C6, witnessed at a required string field named R with every key
absent. -/
theorem C6_witness :
    (NewVarWithFunc yamlStub fieldRequired getEmpty).2 =
      some (GoError.requiredMissing "R") ∧
    GoError.message (GoError.requiredMissing "R") = "R" ++ " required" :=
  C6_required_missing yamlStub fieldRequired getEmpty (by decide) rfl

/-- C7: for every non-required field whose lookup yields the empty string,
the resolved value is the tag-declared default when one exists and the
zero value of the target type otherwise, and it is never the unset sentinel. -/
theorem C7_absent_default_or_zero (yaml : YamlDec) (field : StructField)
    (get : String → String)
    (hReq : ((Var.Parse yaml field).1).Required = false)
    (hAbs : get ((Var.Parse yaml field).1).Key = "") :
    (NewVarWithFunc yaml field get).1.Value =
      (if ((Var.Parse yaml field).1).Default ≠ GoValue.nil
       then ((Var.Parse yaml field).1).Default
       else zeroValue ((Var.Parse yaml field).1).Typ) ∧
    (NewVarWithFunc yaml field get).1.Value ≠ GoValue.nil := by
  have hc : convert yaml ((Var.Parse yaml field).1).Typ
      (get ((Var.Parse yaml field).1).Key) ((Var.Parse yaml field).1).Decode =
      .ok GoValue.nil := by
    rw [hAbs]
    exact convert_empty _ _ _
  have hcase := NewVarWithFunc_nil_notRequired yaml field get hc hReq
  constructor
  · rw [hcase, finishOptions_fst]
  · rw [hcase, finishOptions_fst]
    show (if ((Var.Parse yaml field).1).Default ≠ GoValue.nil
          then ((Var.Parse yaml field).1).Default
          else zeroValue ((Var.Parse yaml field).1).Typ) ≠ GoValue.nil
    split_ifs with hd
    · exact hd
    · exact zeroValue_ne_nil _

/-- C7, witnessed at an int field tagged `default=5` with every key
absent: the resolved value is the integer 5. -/
theorem C7_witness :
    (NewVarWithFunc yamlStub fieldDefaultFive getEmpty).1.Value = GoValue.vInt 5 := by
  have h := C7_absent_default_or_zero yamlStub fieldDefaultFive getEmpty (by decide) rfl
  exact h.1.trans (by decide)

theorem finishOptions_fail2 (v : Var) (hnc : v.optionsContains v.Value = false)
    (hOpts : v.Options ≠ []) :
    Var.finishOptions v = (v, some (.optionNotAllowed v.Key v.Value v.Options)) :=
  finishOptions_fail v hOpts hnc

/-- C8: for every field declaring a non-empty options set, resolution
succeeds only if the final value is among the declared options; and when
conversion of the looked-up value succeeded on a non-required field but
the final value is not among the options, resolution fails with the
option-not-allowed error carrying the key, the offending value and the
allowed options. -/
theorem C8_options_enforced (yaml : YamlDec) (field : StructField)
    (get : String → String)
    (hOpts : ((Var.Parse yaml field).1).Options ≠ []) :
    ((NewVarWithFunc yaml field get).2 = none →
      (NewVarWithFunc yaml field get).1.optionsContains
        ((NewVarWithFunc yaml field get).1.Value) = true) ∧
    (((Var.Parse yaml field).1).Required = false →
      (∃ w, convert yaml ((Var.Parse yaml field).1).Typ
          (get ((Var.Parse yaml field).1).Key)
          ((Var.Parse yaml field).1).Decode = Except.ok w) →
      (NewVarWithFunc yaml field get).1.optionsContains
        ((NewVarWithFunc yaml field get).1.Value) = false →
      (NewVarWithFunc yaml field get).2 =
        some (GoError.optionNotAllowed ((NewVarWithFunc yaml field get).1).Key
          ((NewVarWithFunc yaml field get).1).Value
          ((NewVarWithFunc yaml field get).1).Options)) := by
  constructor
  · intro hnone
    cases hc : convert yaml ((Var.Parse yaml field).1).Typ
        (get ((Var.Parse yaml field).1).Key) ((Var.Parse yaml field).1).Decode with
    | error e =>
      rw [NewVarWithFunc_conv_error yaml field get e hc] at hnone
      cases hnone
    | ok w =>
      by_cases hw : w = GoValue.nil
      · subst hw
        by_cases hr : ((Var.Parse yaml field).1).Required = true
        · rw [NewVarWithFunc_nil_required yaml field get hc hr] at hnone
          cases hnone
        · have hcase := NewVarWithFunc_nil_notRequired yaml field get hc (by simpa using hr)
          rw [hcase] at hnone
          rw [hcase, finishOptions_fst]
          exact finishOptions_snd_none _ hOpts hnone
      · have hcase := NewVarWithFunc_present_case yaml field get w hc hw
        rw [hcase] at hnone
        rw [hcase, finishOptions_fst]
        exact finishOptions_snd_none _ hOpts hnone
  · intro hreq hex hnc
    rcases hex with ⟨w, hw⟩
    by_cases hwn : w = GoValue.nil
    · subst hwn
      have hcase := NewVarWithFunc_nil_notRequired yaml field get hw hreq
      rw [hcase, finishOptions_fst] at hnc
      rw [hcase, finishOptions_fst, finishOptions_fail2 _ hnc hOpts]
    · have hcase := NewVarWithFunc_present_case yaml field get w hw hwn
      rw [hcase, finishOptions_fst] at hnc
      rw [hcase, finishOptions_fst, finishOptions_fail2 _ hnc hOpts]

/-- C8, witnessed at a string field with `options=a,b,c` and lookup value
"d": resolution fails with the option-not-allowed error naming the key,
the value "d" and the three options. -/
theorem C8_witness :
    (NewVarWithFunc yamlStub fieldOptionsAbc (fun _ => "d")).2 =
      some (GoError.optionNotAllowed "F" (GoValue.vString "d")
        [GoValue.vString "a", GoValue.vString "b", GoValue.vString "c"]) := by
  have h := C8_options_enforced yamlStub fieldOptionsAbc (fun _ => "d") (by decide)
  exact h.2 (by decide) ⟨GoValue.vString "d", rfl⟩ (by decide)

/-- C9: the lookup key of every constructed descriptor is entirely uppercase
(a fixed point of upper-casing), both straight out of the tag parser and
out of the driver-facing entry point. -/
theorem C9_key_always_uppercase (yaml : YamlDec) (field : StructField)
    (get : String → String) :
    stringsToUpper ((Var.Parse yaml field).1).Key = ((Var.Parse yaml field).1).Key ∧
    stringsToUpper ((NewVarWithFunc yaml field get).1).Key =
      ((NewVarWithFunc yaml field get).1).Key := by
  have hparse : stringsToUpper ((Var.Parse yaml field).1).Key =
      ((Var.Parse yaml field).1).Key := by
    by_cases htag : field.tag = ""
    · unfold Var.Parse
      rw [if_pos htag]
      exact stringsToUpper_idem field.name
    · cases hD : List.lookup "decode" (tagMap (stringsSplit field.tag ' ')) with
      | some D =>
        rw [Parse_decode_eq yaml field D htag hD]
        exact processList_key_upper yaml _ _ (stringsToUpper_idem field.name)
      | none =>
        rw [Parse_nodecode_eq yaml field htag hD]
        exact processList_key_upper yaml _ _ (stringsToUpper_idem field.name)
  exact ⟨hparse, by rw [NewVarWithFunc_fst_key]; exact hparse⟩

/-- C10: for every non-required field with a non-empty options set and an
absent lookup value, the resolved value is the substituted one (default if
present, else the zero value) and the options membership check applies to
it: if the substituted value is not among the options, resolution fails
with the option-not-allowed error. -/
theorem C10_options_checked_on_substituted (yaml : YamlDec) (field : StructField)
    (get : String → String)
    (hReq : ((Var.Parse yaml field).1).Required = false)
    (hAbs : get ((Var.Parse yaml field).1).Key = "")
    (hOpts : ((Var.Parse yaml field).1).Options ≠ []) :
    (NewVarWithFunc yaml field get).1.Value =
      (if ((Var.Parse yaml field).1).Default ≠ GoValue.nil
       then ((Var.Parse yaml field).1).Default
       else zeroValue ((Var.Parse yaml field).1).Typ) ∧
    ((NewVarWithFunc yaml field get).1.optionsContains
        ((NewVarWithFunc yaml field get).1.Value) = false →
      (NewVarWithFunc yaml field get).2 =
        some (GoError.optionNotAllowed ((Var.Parse yaml field).1).Key
          ((NewVarWithFunc yaml field get).1.Value)
          ((Var.Parse yaml field).1).Options)) := by
  have hc : convert yaml ((Var.Parse yaml field).1).Typ
      (get ((Var.Parse yaml field).1).Key) ((Var.Parse yaml field).1).Decode =
      .ok GoValue.nil := by
    rw [hAbs]
    exact convert_empty _ _ _
  have hcase := NewVarWithFunc_nil_notRequired yaml field get hc hReq
  constructor
  · rw [hcase, finishOptions_fst]
  · intro hnc
    rw [hcase, finishOptions_fst] at hnc
    rw [hcase, finishOptions_fst, finishOptions_fail2 _ hnc hOpts]

/-- C10, witnessed at a non-required int field with `options=1,2`, no
default and an absent key: the zero value 0 is substituted, is not among
the options, and resolution fails naming key N, value 0 and the options. -/
theorem C10_witness :
    (NewVarWithFunc yamlStub fieldOptionsNums getEmpty).2 =
      some (GoError.optionNotAllowed "N" (GoValue.vInt 0)
        [GoValue.vInt 1, GoValue.vInt 2]) := by
  have h := C10_options_checked_on_substituted yamlStub fieldOptionsNums getEmpty
    (by decide) rfl (by decide)
  exact h.2 (by decide)
